import Mathlib

/-!
Verification of the FindMyStocks data-acquisition and filtering engine.

The Python sources are shallowly embedded: JSON values become the inductive
type `Value`, Python dicts become insertion-ordered association lists,
machine floats become rationals, file I/O becomes explicit state passing
(a cache store goes in, the possibly pruned store and a write-back flag
come out), and the thread pool of the batch fetcher becomes an explicit
completion-order list quantified over all permutations of the canonical
per-batch results.
-/

namespace FindMyStocks

/-- A JSON value as Python represents it after json.loads: null, number,
string, boolean, object (an insertion-ordered association list, as Python
dicts preserve insertion order) or array. Machine floats are modelled as
rationals; NaN and infinity are outside the model. -/
inductive Value : Type where
  | vnull : Value
  | vnum : ℚ → Value
  | vstr : String → Value
  | vbool : Bool → Value
  | vobj : List (String × Value) → Value
  | varr : List Value → Value
deriving Repr

open Value

mutual

/-- Boolean equality of JSON values (the nested inductive blocks deriving). -/
def Value.beq : Value → Value → Bool
  | vnull, vnull => true
  | vnum a, vnum b => a == b
  | vstr a, vstr b => a == b
  | vbool a, vbool b => a == b
  | vobj a, vobj b => Value.beqObj a b
  | varr a, varr b => Value.beqArr a b
  | _, _ => false

/-- Boolean equality of object field lists. -/
def Value.beqObj : List (String × Value) → List (String × Value) → Bool
  | [], [] => true
  | (k, v) :: r, (k2, v2) :: r2 => k == k2 && Value.beq v v2 && Value.beqObj r r2
  | _, _ => false

/-- Boolean equality of value lists. -/
def Value.beqArr : List Value → List Value → Bool
  | [], [] => true
  | v :: r, v2 :: r2 => Value.beq v v2 && Value.beqArr r r2
  | _, _ => false

end

mutual

theorem Value.eq_of_beq : ∀ {a b : Value}, Value.beq a b = true → a = b
  | vnull, vnull, _ => rfl
  | vnum a, vnum b, h => by
      simp only [Value.beq] at h
      rw [beq_iff_eq.mp h]
  | vstr a, vstr b, h => by
      simp only [Value.beq] at h
      rw [beq_iff_eq.mp h]
  | vbool a, vbool b, h => by
      simp only [Value.beq] at h
      rw [beq_iff_eq.mp h]
  | vobj a, vobj b, h => by
      simp only [Value.beq] at h
      rw [Value.eqObj_of_beq h]
  | varr a, varr b, h => by
      simp only [Value.beq] at h
      rw [Value.eqArr_of_beq h]

theorem Value.eqObj_of_beq :
    ∀ {a b : List (String × Value)}, Value.beqObj a b = true → a = b
  | [], [], _ => rfl
  | (k, v) :: r, (k2, v2) :: r2, h => by
      simp only [Value.beqObj, Bool.and_eq_true] at h
      obtain ⟨⟨hk, hv⟩, hr⟩ := h
      rw [beq_iff_eq.mp hk, Value.eq_of_beq hv, Value.eqObj_of_beq hr]

theorem Value.eqArr_of_beq : ∀ {a b : List Value}, Value.beqArr a b = true → a = b
  | [], [], _ => rfl
  | v :: r, v2 :: r2, h => by
      simp only [Value.beqArr, Bool.and_eq_true] at h
      obtain ⟨hv, hr⟩ := h
      rw [Value.eq_of_beq hv, Value.eqArr_of_beq hr]

end

mutual

theorem Value.beq_refl : ∀ (a : Value), Value.beq a a = true
  | vnull => rfl
  | vnum a => by simp [Value.beq]
  | vstr a => by simp [Value.beq]
  | vbool a => by simp [Value.beq]
  | vobj a => by simpa [Value.beq] using Value.beqObj_refl a
  | varr a => by simpa [Value.beq] using Value.beqArr_refl a

theorem Value.beqObj_refl : ∀ (a : List (String × Value)), Value.beqObj a a = true
  | [] => rfl
  | (k, v) :: r => by
      simp [Value.beqObj, Value.beq_refl v, Value.beqObj_refl r]

theorem Value.beqArr_refl : ∀ (a : List Value), Value.beqArr a a = true
  | [] => rfl
  | v :: r => by
      simp [Value.beqArr, Value.beq_refl v, Value.beqArr_refl r]

end

instance : DecidableEq Value := fun a b =>
  if h : Value.beq a b = true then .isTrue (Value.eq_of_beq h)
  else .isFalse (fun he => h (he ▸ Value.beq_refl a))

/-- A Python dict decoded from JSON: field name to value, in insertion order. -/
abbrev Obj := List (String × Value)

/-- Python truthiness of a JSON value: None, 0, empty string, False, empty
dict and empty list are falsy, everything else is truthy. -/
def Value.truthy : Value → Bool
  | vnull => false
  | vnum q => decide (q ≠ 0)
  | vstr s => s != ""
  | vbool b => b
  | vobj l => !l.isEmpty
  | varr l => !l.isEmpty

/-- Python d[k] = v on a dict: an existing key keeps its position and gets the
new value, a fresh key is appended. Mirrors dict insertion semantics. -/
def dictUpd {κ β : Type} [BEq κ] [DecidableEq κ] (d : List (κ × β)) (k : κ) (v : β) :
    List (κ × β) :=
  if (d.lookup k).isSome then
    d.map (fun p => if p.1 = k then (k, v) else p)
  else d ++ [(k, v)]

/-- Python dict.get(k) with default None: the first binding of the key, or
null when the key is absent (Python returns None in both the absent and the
stored-null case, which `Value.vnull` models faithfully). -/
def objGet (o : Obj) (k : String) : Value := (o.lookup k).getD vnull

/-- Python dict.get(k) on a value known to be a record; a non-object record
would raise in Python and is given null here. -/
def Value.get : Value → String → Value
  | vobj o, k => objGet o k
  | _, _ => vnull

/-- The first binding of a key in an object value, none when the value is not
an object or the key is absent. -/
def Value.objLookup : Value → String → Option Value
  | vobj o, k => o.lookup k
  | _, _ => none

/-! ## Python float coercion

`float(x)` as used by src/stock_filter.py: numbers pass through, booleans
become 0 or 1, strings are parsed as decimal literals, everything else
(None, dicts, lists) raises and is modelled as failure. Floats are modelled
as rationals; the non-finite literals inf and nan and underscore separators
are outside the model. -/

/-- The numeric value of a non-empty all-digit character list. -/
def digitsToNat (cs : List Char) : Option ℕ :=
  if cs ≠ [] ∧ cs.all Char.isDigit then
    some (cs.foldl (fun n c => n * 10 + (c.toNat - 48)) 0)
  else none

/-- Parse an unsigned decimal mantissa: digits, optionally with one decimal
point, with digits on at least one side of the point. -/
def parseUnsigned (cs : List Char) : Option ℚ :=
  let ip := cs.takeWhile (fun c => c ≠ '.')
  let rest := cs.dropWhile (fun c => c ≠ '.')
  match rest with
  | [] => (digitsToNat ip).map (fun n => (n : ℚ))
  | _ :: fp =>
    if ip.all Char.isDigit ∧ fp.all Char.isDigit ∧ (ip ≠ [] ∨ fp ≠ []) then
      some ((ip.foldl (fun n c => n * 10 + (c.toNat - 48)) 0 : ℕ) +
        (fp.foldl (fun n c => n * 10 + (c.toNat - 48)) 0 : ℕ) / (10 : ℚ) ^ fp.length)
    else none

/-- Parse a signed decimal mantissa. -/
def parseSigned (cs : List Char) : Option ℚ :=
  match cs with
  | '+' :: r => parseUnsigned r
  | '-' :: r => (parseUnsigned r).map (fun q => -q)
  | _ => parseUnsigned cs

/-- Parse a signed exponent (digits required). -/
def parseExponent (cs : List Char) : Option ℤ :=
  match cs with
  | '+' :: r => (digitsToNat r).map (fun n => (n : ℤ))
  | '-' :: r => (digitsToNat r).map (fun n => -(n : ℤ))
  | r => (digitsToNat r).map (fun n => (n : ℤ))

/-- Surrounding whitespace removed from a character list (Python strip). -/
def stripSpace (cs : List Char) : List Char :=
  ((cs.dropWhile Char.isWhitespace).reverse.dropWhile Char.isWhitespace).reverse

/-- Python float(string): strip surrounding whitespace, then parse an
optionally signed decimal with an optional exponent part. -/
def parseFloat (s : String) : Option ℚ :=
  let cs := stripSpace s.toList
  let mant := cs.takeWhile (fun c => c ≠ 'e' ∧ c ≠ 'E')
  match cs.dropWhile (fun c => c ≠ 'e' ∧ c ≠ 'E') with
  | [] => parseSigned mant
  | _ :: ex => do
      let m ← parseSigned mant
      let e ← parseExponent ex
      some (m * (10 : ℚ) ^ e)

/-- Python float(value) on a JSON value: the coercion used by the stock
filter. None, objects and arrays raise TypeError (modelled as none). -/
def toFloat : Value → Option ℚ
  | vnum q => some q
  | vbool b => some (if b then 1 else 0)
  | vstr s => parseFloat s
  | _ => none

/-! ## src/stock_filter.py -/

/-- One metric filter entry: the requested range list. The declared shape is
a two-element [min, max] with either bound possibly null, but the code also
tolerates other lengths, so the range is an arbitrary list of optional
bounds. -/
abbrev RangeSpec := List (Option ℚ)

/-- One iteration of the inner loop of filter_stocks_by_metrics: a range
that is not a two-element list is skipped (continue); a null field value,
a failed float coercion, a value below a non-null min or above a non-null
max each fail the entry. -/
def entryPass (stock : Obj) (entry : String × RangeSpec) : Bool :=
  match entry.2 with
  | [minValue, maxValue] =>
    match objGet stock entry.1 with
    | vnull => false
    | v =>
      match toFloat v with
      | none => false
      | some x =>
        !(match minValue with | some mn => decide (x < mn) | none => false) &&
        !(match maxValue with | some mx => decide (mx < x) | none => false)
  | _ => true

/-- The body of the per-stock loop of filter_stocks_by_metrics: the stock
matches when every filter entry passes; the first failing entry stops the
scan (break), which List.all models. -/
def stockMatches (metricsFilter : List (String × RangeSpec)) (stock : Obj) :
    Bool :=
  metricsFilter.all (entryPass stock)

/-- filter_stocks_by_metrics from src/stock_filter.py: an empty stock list or
an empty filter dict is returned unchanged; otherwise the stocks that satisfy
every filter entry are kept in order. -/
def filter_stocks_by_metrics (stocksData : List Obj)
    (metricsFilter : List (String × RangeSpec)) : List Obj :=
  if stocksData.isEmpty ∨ metricsFilter.isEmpty then stocksData
  else stocksData.filter (stockMatches metricsFilter)

/-- Modelled from the claim text of C5, one filter entry: the record has a
non-null value for the metric, the value is coercible to a floating-point
number, and (min is null or value at least min) and (max is null or value at
most max); an entry whose range is not a 2-element list is vacuously
satisfied. -/
def claimEntryPass (stock : Obj) (entry : String × RangeSpec) : Bool :=
  match entry.2 with
  | [minValue, maxValue] =>
    decide (objGet stock entry.1 ≠ vnull) &&
    (match toFloat (objGet stock entry.1) with
     | none => false
     | some x =>
       (match minValue with | some mn => decide (mn ≤ x) | none => true) &&
       (match maxValue with | some mx => decide (x ≤ mx) | none => true))
  | _ => true

/-- Modelled from the claim text of C5: a record is kept iff every filter
entry is satisfied (conjunction). -/
def claimMatchesC5 (metricsFilter : List (String × RangeSpec)) (stock : Obj) :
    Bool :=
  metricsFilter.all (claimEntryPass stock)

/-- Both phrasings of a range test agree: value not below min and not above
max is the same as min at most value and value at most max. -/
theorem rangeCheck_eq (x : ℚ) (mn mx : Option ℚ) :
    (!(match mn with | some a => decide (x < a) | none => false) &&
     !(match mx with | some b => decide (b < x) | none => false)) =
    ((match mn with | some a => decide (a ≤ x) | none => true) &&
     (match mx with | some b => decide (x ≤ b) | none => true)) := by
  cases mn <;> cases mx <;> simp [← decide_not, not_lt]

/-- The loop body of the Python filter agrees with the matching rule the
claim states, entry by entry. -/
theorem entryPass_eq_claim (s : Obj) (e : String × RangeSpec) :
    entryPass s e = claimEntryPass s e := by
  obtain ⟨name, range⟩ := e
  match range with
  | [] => rfl
  | [_] => rfl
  | _ :: _ :: _ :: _ => rfl
  | [mn, mx] =>
    simp only [entryPass, claimEntryPass]
    rcases objGet s name with _ | q | st | b | o | a
    · rfl
    · simp [toFloat, rangeCheck_eq]
    · cases parseFloat st <;> simp [toFloat, rangeCheck_eq]
    · simp [toFloat, rangeCheck_eq]
    · simp [toFloat]
    · simp [toFloat]

/-- The whole-stock test of the Python filter agrees with the conjunction the
claim states. -/
theorem stockMatches_eq_claim (f : List (String × RangeSpec)) (s : Obj) :
    stockMatches f s = claimMatchesC5 f s := by
  unfold stockMatches claimMatchesC5
  induction f with
  | nil => rfl
  | cons e rest ih => rw [List.all_cons, List.all_cons, entryPass_eq_claim, ih]

/-- C5: Filter matching rule. For every record list and filter spec, a record
is kept iff for every filter entry whose range is a 2-element list the record
has a non-null value for that metric, the value is coercible to a
floating-point number, and (min is null or value at least min) and (max is
null or value at most max); a record failing any single entry is excluded
(conjunction), entries whose range is not a 2-element list are vacuously
satisfied, and an empty filter spec returns the input unchanged. -/
theorem c5_filter_matching_rule :
    (∀ (stocksData : List Obj) (metricsFilter : List (String × RangeSpec)),
      filter_stocks_by_metrics stocksData metricsFilter =
        stocksData.filter (claimMatchesC5 metricsFilter)) ∧
    (∀ stocksData : List Obj, filter_stocks_by_metrics stocksData [] = stocksData) := by
  constructor
  · intro stocksData metricsFilter
    rcases stocksData with _ | ⟨r, rs⟩
    · simp [filter_stocks_by_metrics]
    rcases metricsFilter with _ | ⟨e, es⟩
    · have htriv : ∀ l : List Obj, List.filter (claimMatchesC5 []) l = l := by
        intro l
        induction l with
        | nil => rfl
        | cons a t ih => simp [claimMatchesC5, ih]
      simp [filter_stocks_by_metrics, htriv]
    · unfold filter_stocks_by_metrics
      rw [if_neg (by simp)]
      exact List.filter_congr (fun s _ => stockMatches_eq_claim (e :: es) s)
  · intro stocksData
    simp [filter_stocks_by_metrics]

/-! ## src/api/data_cache.py

The cache file is modelled by the decoded JSON store it holds: a mapping
from date string to cache entry. _load_cache on a missing or unreadable file
gives the empty store; _save_cache is modelled by returning the new store
(an I/O failure there raises in Python and is outside the model). The
current clock time.time() is the explicit parameter now. -/

/-- The expiry test applied to the expireAt field value by both
_clean_expired_cache and get_cache: the value must be truthy and below the
current timestamp. A truthy non-numeric expireAt would raise TypeError on
the comparison in Python; it is treated as not expired here and no claim
exercises such a store. -/
def expiredVal (e : Value) (now : ℚ) : Bool :=
  e.truthy && (match e with | vnum q => decide (q < now) | _ => false)

/-- The per-entry test of _clean_expired_cache: a mapping that carries an
expireAt key whose value passes the expiry test. -/
def entryExpired (v : Value) (now : ℚ) : Bool :=
  match v with
  | vobj fields =>
    match fields.lookup "expireAt" with
    | some e => expiredVal e now
    | none => false
  | _ => false

/-- The dates _clean_expired_cache collects for deletion: dates of expired
entries, in store order. -/
def expiredDates (store : Obj) (now : ℚ) : List String :=
  (store.filter (fun p => entryExpired p.2 now)).map (fun p => p.1)

/-- _clean_expired_cache: collect the dates of expired entries, delete them
from the store, and persist the pruned store when anything was removed.
Returns the cleaned store and whether it was written back. -/
def clean_expired_cache (store : Obj) (now : ℚ) : Obj × Bool :=
  if (expiredDates store now).isEmpty then (store, false)
  else (store.filter (fun p => !(expiredDates store now).contains p.1), true)

/-- The per-entry tail of get_cache, lines 82 to 112 of
src/api/data_cache.py: the entry must be truthy, be a mapping carrying an
expireAt key (else it is the legacy format), be unexpired, and carry a
truthy metricsList whose set contains every requested metric; the stored
data field is then returned, and null (a miss, exactly as Python returns
None) in every other case. A metricsList value that is not a list misses
here (the Python set() call on it would iterate characters or raise). -/
def cache_entry_result (cachedValue : Value) (metricsList : List String)
    (now : ℚ) : Value :=
  if !cachedValue.truthy then vnull
  else
    match cachedValue with
    | vobj fields =>
      match fields.lookup "expireAt" with
      | some e =>
        if expiredVal e now then vnull
        else
          match fields.lookup "metricsList" with
          | some ml =>
            if !ml.truthy then vnull
            else
              match ml with
              | varr cachedMetrics =>
                if metricsList.all (fun m => cachedMetrics.contains (vstr m)) then
                  (fields.lookup "data").getD vnull
                else vnull
              | _ => vnull
          | none => vnull
      | none => vnull
    | _ => vnull

/-- get_cache from src/api/data_cache.py: the returned value (null means a
cache miss), the store left on disk after expiry cleaning, and whether the
cleaned store was written back. An empty store returns immediately;
otherwise expired entries are swept and the entry found for the date is
examined by cache_entry_result. -/
def get_cache (date : String) (metricsList : List String) (store : Obj)
    (now : ℚ) : Value × Obj × Bool :=
  if store.isEmpty then (vnull, store, false)
  else
    match (clean_expired_cache store now).1.lookup date with
    | none =>
      (vnull, (clean_expired_cache store now).1, (clean_expired_cache store now).2)
    | some cachedValue =>
      (cache_entry_result cachedValue metricsList now,
       (clean_expired_cache store now).1, (clean_expired_cache store now).2)

section AssocLemmas

variable {κ β : Type} [BEq κ] [LawfulBEq κ]

/-- Filtering does not change the first binding of a key when every binding
of that key is kept. -/
theorem lookup_filter_keep (l : List (κ × β)) (q : κ × β → Bool) (k : κ)
    (h : ∀ p ∈ l, p.1 = k → q p = true) :
    (l.filter q).lookup k = l.lookup k := by
  induction l with
  | nil => rfl
  | cons p rest ih =>
    have ih2 := ih (fun a ha hk => h a (List.mem_cons_of_mem p ha) hk)
    obtain ⟨k1, v1⟩ := p
    by_cases hk : k1 = k
    · subst hk
      rw [List.filter_cons_of_pos (h (k1, v1) (List.mem_cons_self _ _) rfl)]
      simp
    · have hbeq : (k == k1) = false := by
        simp only [beq_eq_false_iff_ne, ne_eq]
        exact fun he => hk he.symm
      cases hq : q (k1, v1) with
      | true =>
        rw [List.filter_cons_of_pos hq, List.lookup_cons, List.lookup_cons, hbeq, ih2]
      | false =>
        rw [List.filter_cons_of_neg (by simp [hq]), List.lookup_cons, hbeq, ih2]

/-- Filtering removes a key entirely when every binding of that key is
dropped. -/
theorem lookup_filter_drop (l : List (κ × β)) (q : κ × β → Bool) (k : κ)
    (h : ∀ p ∈ l, p.1 = k → q p = false) :
    (l.filter q).lookup k = none := by
  rw [List.lookup_eq_none_iff]
  intro p hp
  have hmem := List.mem_of_mem_filter hp
  have hq := List.of_mem_filter hp
  by_cases hk : p.1 = k
  · rw [h p hmem hk] at hq
    cases hq
  · simp only [bne_iff_ne, ne_eq]
    exact fun he => hk he.symm

/-- A successful lookup exhibits a member pair. -/
theorem mem_of_lookup_eq_some {l : List (κ × β)} {k : κ} {b : β}
    (h : l.lookup k = some b) : (k, b) ∈ l := by
  obtain ⟨l₁, l₂, rfl, _⟩ := List.lookup_eq_some_iff.mp h
  simp

/-- With pairwise-distinct keys, lookup finds exactly the member pair. -/
theorem lookup_eq_of_mem_nodup {l : List (κ × β)}
    (hnd : (l.map Prod.fst).Nodup) {k : κ} {b : β} (hm : (k, b) ∈ l) :
    l.lookup k = some b := by
  induction l with
  | nil => cases hm
  | cons p rest ih =>
    rw [List.map_cons, List.nodup_cons] at hnd
    rcases List.mem_cons.mp hm with h | h
    · subst h
      simp
    · have hk : (k == p.1) = false := by
        simp only [beq_eq_false_iff_ne, ne_eq]
        intro he
        exact hnd.1 (he ▸ List.mem_map_of_mem Prod.fst h)
      obtain ⟨k1, v1⟩ := p
      rw [List.lookup_cons, hk, ih hnd.2 h]

end AssocLemmas

section DictUpdLemmas

variable {κ β : Type} [BEq κ] [LawfulBEq κ] [DecidableEq κ]

/-- In-place update of every binding of a key leaves the written key looking
up the written value, provided the key is present. -/
theorem lookup_map_upd_self (d : List (κ × β)) (k : κ) (v : β)
    (hs : (d.lookup k).isSome) :
    (d.map (fun p => if p.1 = k then (k, v) else p)).lookup k = some v := by
  induction d with
  | nil => simp at hs
  | cons p rest ih =>
    obtain ⟨k1, v1⟩ := p
    simp only [List.map_cons]
    by_cases hk : k1 = k
    · rw [if_pos hk]
      simp
    · have hbeq : (k == k1) = false := by
        simp only [beq_eq_false_iff_ne, ne_eq]
        exact fun he => hk he.symm
      rw [List.lookup_cons, hbeq] at hs
      rw [if_neg hk, List.lookup_cons, hbeq]
      exact ih hs

/-- In-place update of every binding of a key does not change the lookup of
any other key. -/
theorem lookup_map_upd_ne (d : List (κ × β)) (k : κ) (v : β) (k2 : κ)
    (h : k2 ≠ k) :
    (d.map (fun p => if p.1 = k then (k, v) else p)).lookup k2 = d.lookup k2 := by
  induction d with
  | nil => rfl
  | cons p rest ih =>
    obtain ⟨k1, v1⟩ := p
    simp only [List.map_cons]
    by_cases hk : k1 = k
    · rw [if_pos hk]
      have h1 : (k2 == k) = false := by simp [h]
      have h2 : (k2 == k1) = false := by rw [hk]; exact h1
      rw [List.lookup_cons, List.lookup_cons, h1, h2, ih]
    · rw [if_neg hk, List.lookup_cons, List.lookup_cons]
      cases hbe : (k2 == k1) with
      | true => rfl
      | false => rw [ih]

/-- After dictUpd, looking up the written key yields the written value. -/
theorem dictUpd_lookup_self (d : List (κ × β)) (k : κ) (v : β) :
    (dictUpd d k v).lookup k = some v := by
  unfold dictUpd
  split
  · rename_i hs
    exact lookup_map_upd_self d k v hs
  · rename_i hs
    rw [List.lookup_append]
    rw [Bool.not_eq_true, Option.not_isSome, Option.isNone_iff_eq_none] at hs
    rw [hs]
    simp

/-- dictUpd leaves the lookup of every other key unchanged. -/
theorem dictUpd_lookup_ne (d : List (κ × β)) (k : κ) (v : β) (k2 : κ)
    (h : k2 ≠ k) : (dictUpd d k v).lookup k2 = d.lookup k2 := by
  have hbeq : (k2 == k) = false := by simp [h]
  unfold dictUpd
  split
  · exact lookup_map_upd_ne d k v k2 h
  · rw [List.lookup_append]
    have h1 : ([(k, v)] : List (κ × β)).lookup k2 = none := by
      simp [List.lookup_cons, hbeq]
    rw [h1, Option.or_none]

/-- Every binding of the written key holds the written value after dictUpd. -/
theorem dictUpd_val_of_key (d : List (κ × β)) (k : κ) (v : β) :
    ∀ p ∈ dictUpd d k v, p.1 = k → p.2 = v := by
  intro p hp hk
  unfold dictUpd at hp
  split at hp
  · obtain ⟨a, ha, hfa⟩ := List.mem_map.mp hp
    by_cases hak : a.1 = k
    · rw [if_pos hak] at hfa
      rw [← hfa]
    · rw [if_neg hak] at hfa
      exact absurd (hfa ▸ hk) hak
  · rename_i hs
    rcases List.mem_append.mp hp with h | h
    · exfalso
      apply hs
      rw [List.lookup_isSome_iff]
      exact ⟨p, h, by simp [hk]⟩
    · rw [List.mem_singleton.mp h]

/-- dictUpd never produces the empty list. -/
theorem dictUpd_ne_nil (d : List (κ × β)) (k : κ) (v : β) :
    dictUpd d k v ≠ [] := by
  unfold dictUpd
  split
  · rename_i hs
    cases d with
    | nil => simp at hs
    | cons p rest => simp
  · simp

end DictUpdLemmas

/-- Membership in the swept date list means some expired binding of that
date is in the store. -/
theorem mem_expiredDates {store : Obj} {now : ℚ} {k : String} :
    k ∈ expiredDates store now ↔
      ∃ v, (k, v) ∈ store ∧ entryExpired v now = true := by
  unfold expiredDates
  constructor
  · intro hmem
    obtain ⟨p, hp, hpk⟩ := List.mem_map.mp hmem
    refine ⟨p.2, ?_, (List.mem_filter.mp hp).2⟩
    have hkp : (k, p.2) = p := by rw [← hpk]
    rw [hkp]
    exact List.mem_of_mem_filter hp
  · rintro ⟨v, hm, he⟩
    exact List.mem_map.mpr ⟨(k, v), List.mem_filter.mpr ⟨hm, he⟩, rfl⟩

/-- If every binding of a key is unexpired, cleaning preserves its lookup. -/
theorem clean_lookup_keep (store : Obj) (now : ℚ) (k : String)
    (h : ∀ p ∈ store, p.1 = k → entryExpired p.2 now = false) :
    ((clean_expired_cache store now).1).lookup k = store.lookup k := by
  unfold clean_expired_cache
  split
  · rfl
  · refine lookup_filter_keep store _ k (fun p hp hpk => ?_)
    have hnm : k ∉ expiredDates store now := by
      intro hmem
      obtain ⟨v, hv, hexp⟩ := mem_expiredDates.mp hmem
      rw [h (k, v) hv rfl] at hexp
      cases hexp
    simp only [hpk, Bool.not_eq_eq_eq_not, Bool.not_true]
    simpa [List.contains] using hnm

/-- A key holding an expired entry is gone from the cleaned store. -/
theorem clean_lookup_expired (store : Obj) (now : ℚ) (k : String) (v : Value)
    (hl : store.lookup k = some v) (he : entryExpired v now = true) :
    ((clean_expired_cache store now).1).lookup k = none := by
  have hkmem : k ∈ expiredDates store now :=
    mem_expiredDates.mpr ⟨v, mem_of_lookup_eq_some hl, he⟩
  unfold clean_expired_cache
  split
  · rename_i hemp
    rw [List.isEmpty_iff.mp hemp] at hkmem
    cases hkmem
  · refine lookup_filter_drop store _ k (fun p hp hpk => ?_)
    simp only [hpk, Bool.not_eq_eq_eq_not, Bool.not_false]
    simpa [List.contains] using hkmem

/-- Sweeping an expired entry sets the written-back flag. -/
theorem clean_wrote_of_expired (store : Obj) (now : ℚ) (k : String) (v : Value)
    (hl : store.lookup k = some v) (he : entryExpired v now = true) :
    (clean_expired_cache store now).2 = true := by
  have hkmem : k ∈ expiredDates store now :=
    mem_expiredDates.mpr ⟨v, mem_of_lookup_eq_some hl, he⟩
  unfold clean_expired_cache
  split
  · rename_i hemp
    rw [List.isEmpty_iff.mp hemp] at hkmem
    cases hkmem
  · rfl

/-- The cleaned store is a sublist of the original store. -/
theorem clean_sublist (store : Obj) (now : ℚ) :
    List.Sublist (clean_expired_cache store now).1 store := by
  unfold clean_expired_cache
  split
  · exact List.Sublist.refl store
  · exact List.filter_sublist store

/-- A display string standing in for time.strftime in save_cache; the stored
savedAt field is display-only and no claim depends on its format. -/
def savedAtString (now : ℚ) : String :=
  toString now.num ++ "." ++ toString now.den

/-- save_cache from src/api/data_cache.py: load the store, compute the
expiry instant now plus expireDays days, wrap data with metricsList,
expireAt and savedAt, replace the entry for the date, and persist the whole
store (returned). -/
def save_cache (date : String) (data : Value) (metricsList : List String)
    (store : Obj) (now : ℚ) (expireDays : ℤ) : Obj :=
  let expireAt : ℚ := now + (expireDays : ℚ) * (24 * 60 * 60)
  let entry := vobj [("data", data),
    ("metricsList", varr (metricsList.map vstr)),
    ("expireAt", vnum expireAt),
    ("savedAt", vstr (savedAtString now))]
  dictUpd store date entry

/-- An entry value that cache_entry_result accepts: a non-empty mapping
carrying an expireAt key whose value is not a truthy past timestamp, and a
metricsList key holding a non-empty list that contains every requested
metric. -/
def entryHit (cv : Value) (metrics : List String) (now : ℚ) : Prop :=
  ∃ fields, cv = vobj fields ∧ fields ≠ [] ∧
    (∃ e, fields.lookup "expireAt" = some e ∧ expiredVal e now = false) ∧
    (∃ cm, fields.lookup "metricsList" = some (varr cm) ∧ cm ≠ [] ∧
      ∀ m ∈ metrics, vstr m ∈ cm)

/-- Modelled from the claim text of C1 as amended: a hit is an entry for the
date that cache_entry_result accepts. -/
def cacheHit (store : Obj) (date : String) (metrics : List String)
    (now : ℚ) : Prop :=
  ∃ cv, store.lookup date = some cv ∧ entryHit cv metrics now

/-- An accepted entry yields its stored data field. -/
theorem cache_entry_result_of_hit (cv : Value) (metrics : List String)
    (now : ℚ) (fields : Obj) (hcv : cv = vobj fields) (hne : fields ≠ [])
    (he : ∃ e, fields.lookup "expireAt" = some e ∧ expiredVal e now = false)
    (hcm : ∃ cm, fields.lookup "metricsList" = some (varr cm) ∧ cm ≠ [] ∧
      ∀ m ∈ metrics, vstr m ∈ cm) :
    cache_entry_result cv metrics now = (fields.lookup "data").getD vnull := by
  obtain ⟨e, helk, hexp⟩ := he
  obtain ⟨cm, hmlk, hcmne, hsub⟩ := hcm
  subst hcv
  have htr : (vobj fields).truthy = true := by
    simp [Value.truthy, hne]
  have hcmtr : (varr cm).truthy = true := by
    simp [Value.truthy, hcmne]
  have hall : (metrics.all (fun m => cm.contains (vstr m))) = true := by
    rw [List.all_eq_true]
    intro m hm
    simpa [List.contains] using hsub m hm
  simp only [cache_entry_result, htr, Bool.not_true, Bool.false_eq_true,
    if_false, helk, hexp, hmlk, hcmtr, hall, if_true]

/-- A rejected entry yields a miss. -/
theorem cache_entry_result_of_no_hit (cv : Value) (metrics : List String)
    (now : ℚ) (h : ¬ entryHit cv metrics now) :
    cache_entry_result cv metrics now = vnull := by
  rcases cv with _ | q | st | b | fields | a
  · rfl
  · unfold cache_entry_result
    split <;> rfl
  · unfold cache_entry_result
    split <;> rfl
  · unfold cache_entry_result
    split <;> rfl
  · by_cases htr : (vobj fields).truthy = true
    case neg =>
      rw [Bool.not_eq_true] at htr
      simp only [cache_entry_result, htr, Bool.not_false, if_true]
    simp only [cache_entry_result, htr, Bool.not_true, Bool.false_eq_true, if_false]
    cases helk : fields.lookup "expireAt" with
    | none => rfl
    | some e =>
      by_cases hexp : expiredVal e now = true
      · simp only [hexp, if_true]
      rw [Bool.not_eq_true] at hexp
      simp only [hexp, Bool.false_eq_true, if_false]
      cases hmlk : fields.lookup "metricsList" with
      | none => rfl
      | some ml =>
        by_cases hmtr : ml.truthy = true
        case neg =>
          rw [Bool.not_eq_true] at hmtr
          simp only [hmtr, Bool.not_false, if_true]
        simp only [hmtr, Bool.not_true, Bool.false_eq_true, if_false]
        rcases ml with _ | q2 | st2 | b2 | fl2 | cm
        · rfl
        · rfl
        · rfl
        · rfl
        · rfl
        · by_cases hall : (metrics.all (fun m => cm.contains (vstr m))) = true
          case neg =>
            rw [Bool.not_eq_true] at hall
            simp only [hall, Bool.false_eq_true, if_false]
          simp only [hall, if_true]
          exfalso
          apply h
          refine ⟨fields, rfl, ?_, ⟨e, helk, hexp⟩, cm, hmlk, ?_, ?_⟩
          · intro hf
            rw [hf] at htr
            simp [Value.truthy] at htr
          · intro hf
            rw [hf] at hmtr
            simp [Value.truthy] at hmtr
          · intro m hm
            have := List.all_eq_true.mp hall m hm
            simpa [List.contains] using this
  · unfold cache_entry_result
    split <;> rfl

/-- get_cache returns the stored data of a hit entry, given that every
binding of the date in the store holds that same entry (true of a Python
dict store, where keys are unique). -/
theorem get_cache_of_hit (store : Obj) (date : String) (metrics : List String)
    (now : ℚ) (cv : Value)
    (hlk : store.lookup date = some cv) (hhit : entryHit cv metrics now)
    (huniq : ∀ p ∈ store, p.1 = date → p.2 = cv) :
    ∀ fields, cv = vobj fields →
      (get_cache date metrics store now).1 = (fields.lookup "data").getD vnull := by
  intro fields hcv
  obtain ⟨fields2, hcv2, hne2, he2, hcm2⟩ := hhit
  have hfe : fields2 = fields := by
    rw [hcv] at hcv2
    exact (Value.vobj.injEq _ _).mp hcv2.symm
  subst hfe
  have hnexp : ∀ p ∈ store, p.1 = date → entryExpired p.2 now = false := by
    intro p hp hpk
    rw [huniq p hp hpk, hcv2]
    obtain ⟨e, helk, hexp⟩ := he2
    simp only [entryExpired, helk]
    exact hexp
  have hclean : ((clean_expired_cache store now).1).lookup date = some cv := by
    rw [clean_lookup_keep store now date hnexp]
    exact hlk
  have hsne : store.isEmpty = false := by
    cases store with
    | nil => cases hlk
    | cons a t => rfl
  unfold get_cache
  split
  · rename_i hemp
    rw [hsne] at hemp
    cases hemp
  · simp only [hclean]
    exact cache_entry_result_of_hit cv metrics now fields2 hcv2 hne2 he2 hcm2

/-- get_cache misses when no hit entry for the date exists, given
pairwise-distinct store keys (true of a Python dict store). -/
theorem get_cache_of_no_hit (store : Obj) (date : String)
    (metrics : List String) (now : ℚ)
    (hnd : (store.map Prod.fst).Nodup)
    (hmiss : ¬ cacheHit store date metrics now) :
    (get_cache date metrics store now).1 = vnull := by
  unfold get_cache
  split
  · rfl
  · cases hcl : ((clean_expired_cache store now).1).lookup date with
    | none => simp only [hcl]
    | some cv =>
      have hmem : (date, cv) ∈ store :=
        (clean_sublist store now).mem (mem_of_lookup_eq_some hcl)
      have hsl : store.lookup date = some cv := lookup_eq_of_mem_nodup hnd hmem
      simp only [hcl]
      exact cache_entry_result_of_no_hit cv metrics now (fun hhit => hmiss ⟨cv, hsl, hhit⟩)

/-- C1 (amended): Cache hit condition. For every store with pairwise
distinct keys (a Python dict), date, requested metric list and clock,
get_cache returns the stored data field of the entry for that date iff the
entry exists as a truthy mapping carrying an expireAt key whose value is
not a truthy timestamp strictly below the current time, and a metricsList
holding a non-empty list that contains every requested metric; in every
other case, including legacy entries stored without metricsList or expiry
metadata, it returns null (cache miss). In particular, adding one metric
not in the stored metricsList to an otherwise-hitting request forces a
miss. The original claim required the current time to be strictly before
expireAt; the code expires an entry only when expireAt is strictly in the
past, so at the boundary instant now equal to expireAt the entry still
hits, which the counterexample shows. -/
theorem c1_cache_hit_condition (store : Obj) (date : String)
    (metrics : List String) (now : ℚ)
    (hnd : (store.map Prod.fst).Nodup) :
    (∀ cv fields, store.lookup date = some cv → cv = vobj fields →
      entryHit cv metrics now →
      (get_cache date metrics store now).1 = (fields.lookup "data").getD vnull) ∧
    (¬ cacheHit store date metrics now →
      (get_cache date metrics store now).1 = vnull) ∧
    (∀ cv fields cm m, store.lookup date = some cv → cv = vobj fields →
      fields.lookup "metricsList" = some (varr cm) → vstr m ∉ cm →
      (get_cache date (m :: metrics) store now).1 = vnull) := by
  refine ⟨?_, ?_, ?_⟩
  · intro cv fields hlk hcv hhit
    have huniq : ∀ p ∈ store, p.1 = date → p.2 = cv := by
      intro p hp hpk
      have hmem : (date, p.2) ∈ store := by
        rw [← hpk]
        exact hp
      have h2 : store.lookup date = some p.2 := lookup_eq_of_mem_nodup hnd hmem
      rw [hlk] at h2
      exact (Option.some.injEq _ _).mp h2.symm
    exact get_cache_of_hit store date metrics now cv hlk hhit huniq fields hcv
  · exact get_cache_of_no_hit store date metrics now hnd
  · intro cv fields cm m hlk hcv hml hnm
    apply get_cache_of_no_hit store date (m :: metrics) now hnd
    rintro ⟨cv2, hlk2, fields2, hcv2, hne2, he2, cm2, hml2, hcm2ne, hsub2⟩
    rw [hlk] at hlk2
    have hcveq : cv = cv2 := (Option.some.injEq _ _).mp hlk2
    rw [← hcveq, hcv] at hcv2
    have hfeq : fields = fields2 := (Value.vobj.injEq _ _).mp hcv2
    rw [← hfeq, hml] at hml2
    have hcmeq : cm = cm2 := by
      have := (Option.some.injEq _ _).mp hml2
      exact (Value.varr.injEq _ _).mp this
    exact hnm (hcmeq ▸ hsub2 m (List.mem_cons_self m metrics))

/-- A one-entry demonstration store for the cache claims: one date with
records, covered metrics pe and pb, expiring at timestamp 1000. -/
def demoStore : Obj :=
  [("2024-01-02", vobj [("data", varr [vstr "r1"]),
    ("metricsList", varr [vstr "pe", vstr "pb"]),
    ("expireAt", vnum 1000), ("savedAt", vstr "t")])]

theorem c1_cache_hit_condition_witness :
    (get_cache "2024-01-02" ["pe"] demoStore 500).1 = varr [vstr "r1"] ∧
    (get_cache "2024-01-02" ["mc", "pe"] demoStore 500).1 = vnull := by
  have h := c1_cache_hit_condition demoStore "2024-01-02" ["pe"] 500 (by decide)
  constructor
  · have h1 := h.1 _ [("data", varr [vstr "r1"]),
      ("metricsList", varr [vstr "pe", vstr "pb"]),
      ("expireAt", vnum 1000), ("savedAt", vstr "t")] rfl rfl
      ⟨_, rfl, by decide, ⟨vnum 1000, rfl, by decide⟩,
        ⟨[vstr "pe", vstr "pb"], rfl, by decide, by decide⟩⟩
    exact h1.trans (by decide)
  · exact h.2.2 _ [("data", varr [vstr "r1"]),
      ("metricsList", varr [vstr "pe", vstr "pb"]),
      ("expireAt", vnum 1000), ("savedAt", vstr "t")]
      [vstr "pe", vstr "pb"] "mc" rfl rfl rfl (by decide)

theorem c1_cache_hit_condition_counterexample :
    (get_cache "2024-01-01" ["pe"]
      [("2024-01-01", vobj [("data", varr [vstr "r"]),
        ("metricsList", varr [vstr "pe"]), ("expireAt", vnum 100),
        ("savedAt", vstr "s")])] 100).1 = varr [vstr "r"] ∧
    ¬ ((100 : ℚ) < 100) := by
  exact ⟨by decide, by norm_num⟩

/-- C7 (amended): Cache round-trip. For every date, record set, non-empty
metric list, store, clock and non-negative TTL, save_cache immediately
followed by get_cache with the same metric list and no elapsed time returns
exactly the saved data. The original claim quantified over every metric
list and TTL: an empty metric list is stored as a falsy metricsList that
get_cache always rejects, and a negative TTL stores an already-expired
entry, as the counterexample shows. -/
theorem c7_cache_round_trip (date : String) (data : Value)
    (metrics : List String) (store : Obj) (now : ℚ) (expireDays : ℤ)
    (hm : metrics ≠ []) (hd : 0 ≤ expireDays) :
    (get_cache date metrics
      (save_cache date data metrics store now expireDays) now).1 = data := by
  have hsave : save_cache date data metrics store now expireDays =
      dictUpd store date (vobj [("data", data),
        ("metricsList", varr (metrics.map vstr)),
        ("expireAt", vnum (now + (expireDays : ℚ) * (24 * 60 * 60))),
        ("savedAt", vstr (savedAtString now))]) := rfl
  have hexp : expiredVal (vnum (now + (expireDays : ℚ) * (24 * 60 * 60))) now
      = false := by
    have h2 : (0 : ℚ) ≤ (expireDays : ℚ) * (24 * 60 * 60) :=
      mul_nonneg (by exact_mod_cast hd) (by norm_num)
    have h1 : ¬ (now + (expireDays : ℚ) * (24 * 60 * 60) < now) := by linarith
    simp [expiredVal, h1]
  have hhit : entryHit (vobj [("data", data),
      ("metricsList", varr (metrics.map vstr)),
      ("expireAt", vnum (now + (expireDays : ℚ) * (24 * 60 * 60))),
      ("savedAt", vstr (savedAtString now))]) metrics now := by
    refine ⟨_, rfl, by simp, ⟨_, rfl, hexp⟩, ⟨metrics.map vstr, rfl, ?_, ?_⟩⟩
    · simpa using hm
    · intro m hmm
      exact List.mem_map_of_mem vstr hmm
  rw [hsave]
  have hres := get_cache_of_hit (dictUpd store date _) date metrics now _
    (dictUpd_lookup_self store date _) hhit
    (dictUpd_val_of_key store date _) _ rfl
  rw [hres]
  rfl

theorem c7_cache_round_trip_witness :
    (get_cache "2024-01-03" ["pe"]
      (save_cache "2024-01-03" (varr [vstr "d"]) ["pe"] [] 1000 3) 1000).1 =
      varr [vstr "d"] :=
  c7_cache_round_trip "2024-01-03" (varr [vstr "d"]) ["pe"] [] 1000 3
    (by decide) (by decide)

theorem c7_cache_round_trip_counterexample :
    (get_cache "2024-01-03" []
      (save_cache "2024-01-03" (varr [vstr "d"]) [] [] 1000 3) 1000).1 = vnull ∧
    (get_cache "2024-01-03" ["pe"]
      (save_cache "2024-01-03" (varr [vstr "d"]) ["pe"] [] 1000 (-1)) 1000).1 =
      vnull ∧
    (varr [vstr "d"] : Value) ≠ vnull := by
  refine ⟨?_, ?_, by decide⟩
  · have hstore : save_cache "2024-01-03" (varr [vstr "d"]) [] [] 1000 3 =
        [("2024-01-03", vobj [("data", varr [vstr "d"]),
          ("metricsList", varr []),
          ("expireAt", vnum (1000 + ((3 : ℤ) : ℚ) * (24 * 60 * 60))),
          ("savedAt", vstr (savedAtString 1000))])] := rfl
    rw [hstore]
    apply get_cache_of_no_hit _ _ _ _ (by decide)
    rintro ⟨cv, hlk, fields, hcv, hne, he, cm, hml, hcmne, hsub⟩
    have hcve : cv = vobj [("data", varr [vstr "d"]),
        ("metricsList", varr []),
        ("expireAt", vnum (1000 + ((3 : ℤ) : ℚ) * (24 * 60 * 60))),
        ("savedAt", vstr (savedAtString 1000))] := by
      have h2 : some cv = some (vobj [("data", varr [vstr "d"]),
          ("metricsList", varr []),
          ("expireAt", vnum (1000 + ((3 : ℤ) : ℚ) * (24 * 60 * 60))),
          ("savedAt", vstr (savedAtString 1000))]) := by
        rw [← hlk]
        rfl
      exact (Option.some.injEq _ _).mp h2
    rw [hcve] at hcv
    have hfe := (Value.vobj.injEq _ _).mp hcv.symm
    rw [hfe] at hml
    have hml2 : some (varr ([] : List Value)) = some (varr cm) := by
      rw [← hml]
      rfl
    have hcme : ([] : List Value) = cm :=
      (Value.varr.injEq _ _).mp ((Option.some.injEq _ _).mp hml2)
    exact hcmne hcme.symm
  · have hstore : save_cache "2024-01-03" (varr [vstr "d"]) ["pe"] [] 1000 (-1) =
        [("2024-01-03", vobj [("data", varr [vstr "d"]),
          ("metricsList", varr [vstr "pe"]),
          ("expireAt", vnum (1000 + ((-1 : ℤ) : ℚ) * (24 * 60 * 60))),
          ("savedAt", vstr (savedAtString 1000))])] := rfl
    rw [hstore]
    have hexp : entryExpired (vobj [("data", varr [vstr "d"]),
        ("metricsList", varr [vstr "pe"]),
        ("expireAt", vnum (1000 + ((-1 : ℤ) : ℚ) * (24 * 60 * 60))),
        ("savedAt", vstr (savedAtString 1000))]) 1000 = true := by
      have hlkE : ([("data", varr [vstr "d"]),
          ("metricsList", varr [vstr "pe"]),
          ("expireAt", vnum (1000 + ((-1 : ℤ) : ℚ) * (24 * 60 * 60))),
          ("savedAt", vstr (savedAtString 1000))] : Obj).lookup "expireAt" =
          some (vnum (1000 + ((-1 : ℤ) : ℚ) * (24 * 60 * 60))) := rfl
      simp only [entryExpired, hlkE, expiredVal, Value.truthy,
        Bool.and_eq_true, decide_eq_true_eq]
      constructor
      · norm_num
      · norm_num
    have hcl := clean_lookup_expired [("2024-01-03", vobj [("data", varr [vstr "d"]),
        ("metricsList", varr [vstr "pe"]),
        ("expireAt", vnum (1000 + ((-1 : ℤ) : ℚ) * (24 * 60 * 60))),
        ("savedAt", vstr (savedAtString 1000))])] 1000 "2024-01-03" _ rfl hexp
    unfold get_cache
    split
    · rename_i hemp
      exact absurd hemp (by decide)
    · simp only [hcl]

/-- C8 (amended): TTL sweep. Every entry whose expireAt is a truthy
(nonzero) numeric timestamp strictly in the past at the time of a get_cache
call against the namespace is removed from the store that call leaves
behind, the pruned store is written back during that same call, and a query
for that entry has a null (miss) result. The original claim covered every
expireAt lying in the past: a zero expireAt fails the Python truthiness
guard and is kept without any write-back, as the counterexample shows. -/
theorem c8_ttl_sweep (store : Obj) (date qdate : String)
    (metrics : List String) (now : ℚ) (fields : Obj) (q : ℚ)
    (hlk : store.lookup qdate = some (vobj fields))
    (hq : fields.lookup "expireAt" = some (vnum q))
    (hq0 : q ≠ 0) (hqlt : q < now) :
    ((get_cache date metrics store now).2.1).lookup qdate = none ∧
    (get_cache date metrics store now).2.2 = true ∧
    (qdate = date → (get_cache date metrics store now).1 = vnull) := by
  have hexp : entryExpired (vobj fields) now = true := by
    simp [entryExpired, hq, expiredVal, Value.truthy, hq0, hqlt]
  have hsne : store.isEmpty = false := by
    cases store with
    | nil => cases hlk
    | cons a t => rfl
  have hclkup : ((clean_expired_cache store now).1).lookup qdate = none :=
    clean_lookup_expired store now qdate (vobj fields) hlk hexp
  have hwrote : (clean_expired_cache store now).2 = true :=
    clean_wrote_of_expired store now qdate (vobj fields) hlk hexp
  refine ⟨?_, ?_, ?_⟩
  · unfold get_cache
    split
    · rename_i hemp
      rw [hsne] at hemp
      cases hemp
    · cases hcl : ((clean_expired_cache store now).1).lookup date with
      | none =>
        simp only [hcl]
        exact hclkup
      | some cv =>
        simp only [hcl]
        exact hclkup
  · unfold get_cache
    split
    · rename_i hemp
      rw [hsne] at hemp
      cases hemp
    · cases hcl : ((clean_expired_cache store now).1).lookup date with
      | none =>
        simp only [hcl]
        exact hwrote
      | some cv =>
        simp only [hcl]
        exact hwrote
  · intro hqd
    subst hqd
    unfold get_cache
    split
    · rename_i hemp
      rw [hsne] at hemp
    · simp only [hclkup]

theorem c8_ttl_sweep_witness :
    ((get_cache "old" ["pe"] [("old", vobj [("data", varr [vstr "r"]),
      ("metricsList", varr [vstr "pe"]), ("expireAt", vnum 10),
      ("savedAt", vstr "s")])] 100).2.1).lookup "old" = none ∧
    (get_cache "old" ["pe"] [("old", vobj [("data", varr [vstr "r"]),
      ("metricsList", varr [vstr "pe"]), ("expireAt", vnum 10),
      ("savedAt", vstr "s")])] 100).2.2 = true ∧
    (get_cache "old" ["pe"] [("old", vobj [("data", varr [vstr "r"]),
      ("metricsList", varr [vstr "pe"]), ("expireAt", vnum 10),
      ("savedAt", vstr "s")])] 100).1 = vnull := by
  have h := c8_ttl_sweep [("old", vobj [("data", varr [vstr "r"]),
    ("metricsList", varr [vstr "pe"]), ("expireAt", vnum 10),
    ("savedAt", vstr "s")])] "old" "old" ["pe"] 100
    [("data", varr [vstr "r"]), ("metricsList", varr [vstr "pe"]),
      ("expireAt", vnum 10), ("savedAt", vstr "s")] 10
    rfl rfl (by decide) (by decide)
  exact ⟨h.1, h.2.1, h.2.2 rfl⟩

/-! ## src/api/fundamental_fetcher.py

The network is modelled by an oracle from the batch number to either a
raised exception (an error string) or the decoded data list of the
response, response_data.get('data', []). The thread pool is modelled by
quantifying over every completion order in which the as_completed loop can
observe the per-batch results: any permutation of the canonically indexed
ones. Retries and sleeps live inside request_api and are absorbed into the
oracle outcome. -/

/-- The outcome of one batch as _fetch_single_batch returns it (without its
batch number, which becomes the key in the completion list): the data
records, the missing codes, and the error. -/
structure BatchOut where
  records : List Value
  missing : List String
  error : Option String
deriving Repr, DecidableEq

/-- Structural worker for chunksOf: the fuel bounds the number of chunks
(the list length suffices), keeping the recursion kernel-reducible. -/
def chunksOfAux {α : Type} (size : ℕ) : ℕ → List α → List (List α)
  | _, [] => []
  | 0, _ :: _ => []
  | fuel + 1, a :: rest =>
    (a :: rest.take (size - 1)) :: chunksOfAux size fuel (rest.drop (size - 1))

/-- The chunks stock_codes[i : i + BATCH_SIZE] for i = 0, BATCH_SIZE, ...,
the batches of batch_fetch_fundamental_data, for a positive size. -/
def chunksOf {α : Type} (size : ℕ) (l : List α) : List (List α) :=
  chunksOfAux size l.length l

/-- The truthy stockCode values present in a response, the received set of
_fetch_single_batch (a Python set; only membership matters). -/
def receivedCodes (batchData : List Value) : List Value :=
  batchData.filterMap (fun item =>
    if (item.get "stockCode").truthy then some (item.get "stockCode") else none)

/-- _fetch_single_batch from src/api/fundamental_fetcher.py, given the
upstream outcome of its request: a raised exception gives an empty result
carrying the error; a response gives its data list, and only when the
record count differs from the requested chunk length are the requested
codes absent from the received stockCode set recorded as missing. Python
renders list(set(batch) - received) in unspecified set order; the model
keeps deduplicated request order, which agrees on membership. -/
def fetch_single_batch (batch : List String)
    (resp : Except String (List Value)) : BatchOut :=
  match resp with
  | .error e => ⟨[], [], some e⟩
  | .ok batchData =>
    ⟨batchData,
      if batchData.length ≠ batch.length then
        batch.dedup.filter (fun c => !(receivedCodes batchData).contains (vstr c))
      else [],
      none⟩

/-- The canonical per-batch results keyed by 1-based batch number: batch
i+1 covers chunk i and its oracle outcome. -/
def canonicalResults (stockCodes : List String) (size : ℕ)
    (resp : ℕ → Except String (List Value)) : List (ℕ × BatchOut) :=
  (chunksOf size stockCodes).enum.map
    (fun p => (p.1 + 1, fetch_single_batch p.2 (resp (p.1 + 1))))

/-- sorted(results.items()): the collected per-batch results sorted by
batch number (the keys are distinct, so the value order is determined). -/
def sortByKey (l : List (ℕ × BatchOut)) : List (ℕ × BatchOut) :=
  List.insertionSort (fun a b => a.1 ≤ b.1) l

/-- The results dict of the as_completed loop: batch number to outcome,
inserted in completion order. -/
def collectResults (completion : List (ℕ × BatchOut)) : List (ℕ × BatchOut) :=
  completion.foldl (fun d p => dictUpd d p.1 p.2) []

/-- Lines 201 to 206 of src/api/fundamental_fetcher.py: sort the results by
batch number and concatenate the data of the batches without error
(their missing codes are only accumulated for logging). -/
def reassemble (completion : List (ℕ × BatchOut)) : List Value :=
  (sortByKey (collectResults completion)).foldl
    (fun acc p => if p.2.error = none then acc ++ p.2.records else acc) []

/-- batch_fetch_fundamental_data from src/api/fundamental_fetcher.py (also
exposed to callers as batch_fetch_data): empty codes short-circuit to zero
records without network activity; otherwise the batches run concurrently
and complete in the given order, the failed batch numbers are collected,
the call raises iff every batch failed, and otherwise returns the
reassembled records with their count. -/
def batch_fetch_fundamental_data (stockCodes : List String) (size : ℕ)
    (completion : List (ℕ × BatchOut)) : Except String (ℕ × List Value) :=
  if stockCodes.isEmpty then .ok (0, [])
  else
    if ((completion.filter (fun p => p.2.error.isSome)).map (fun p => p.1)).length =
        (stockCodes.length + size - 1) / size then
      .error "所有批次请求都失败了"
    else .ok ((reassemble completion).length, reassemble completion)

instance : IsTotal (ℕ × BatchOut) (fun a b => a.1 ≤ b.1) :=
  ⟨fun a b => Nat.le_total a.1 b.1⟩

instance : IsTrans (ℕ × BatchOut) (fun a b => a.1 ≤ b.1) :=
  ⟨fun _ _ _ h1 h2 => Nat.le_trans h1 h2⟩

instance : IsAntisymm (ℕ × BatchOut) (fun a b => a.1 < b.1) :=
  ⟨fun _ _ h1 h2 => absurd h2 (Nat.lt_asymm h1)⟩

/-- The fuel of chunksOfAux is irrelevant once it covers the list length. -/
theorem chunksOfAux_fuel {α : Type} (size : ℕ) :
    ∀ (f1 f2 : ℕ) (l : List α), l.length ≤ f1 → l.length ≤ f2 →
      chunksOfAux size f1 l = chunksOfAux size f2 l := by
  intro f1
  induction f1 with
  | zero =>
    intro f2 l h1 _
    cases l with
    | nil =>
      cases f2 <;> rfl
    | cons a rest => simp at h1
  | succ g1 ih =>
    intro f2 l h1 h2
    cases l with
    | nil => cases f2 <;> rfl
    | cons a rest =>
      cases f2 with
      | zero => simp at h2
      | succ g2 =>
        rw [chunksOfAux, chunksOfAux]
        rw [ih g2 (rest.drop (size - 1)) ?_ ?_]
        · simp only [List.length_drop]
          simp only [List.length_cons] at h1
          omega
        · simp only [List.length_drop]
          simp only [List.length_cons] at h2
          omega

/-- The unfolding equation of chunksOf on a cons cell. -/
theorem chunksOf_cons {α : Type} (size : ℕ) (a : α) (rest : List α) :
    chunksOf size (a :: rest) =
      (a :: rest.take (size - 1)) :: chunksOf size (rest.drop (size - 1)) := by
  unfold chunksOf
  rw [List.length_cons, chunksOfAux]
  rw [chunksOfAux_fuel size rest.length (rest.drop (size - 1)).length
    (rest.drop (size - 1)) (by simp [List.length_drop]) (le_refl _)]

/-- The number of chunks is the ceiling-divided batch count total_batches
of the source. -/
theorem chunksOf_length {α : Type} (size : ℕ) (hs : 0 < size) :
    ∀ l : List α, (chunksOf size l).length = (l.length + size - 1) / size
  | [] => by
      simp only [chunksOf, List.length_nil, chunksOfAux, Nat.zero_add]
      exact (Nat.div_eq_of_lt (by omega)).symm
  | a :: rest => by
      rw [chunksOf_cons, List.length_cons,
        chunksOf_length size hs (rest.drop (size - 1)), List.length_drop]
      simp only [List.length_cons]
      rcases Nat.le_total (size - 1) rest.length with h | h
      · have h1 : rest.length - (size - 1) + size - 1 = rest.length := by omega
        have h2 : rest.length + 1 + size - 1 = rest.length + size := by omega
        rw [h1, h2, Nat.add_div_right _ hs]
      · have h1 : rest.length - (size - 1) = 0 := by omega
        have h2 : rest.length + 1 + size - 1 = rest.length + size := by omega
        have h3 : (0 + size - 1) / size = 0 := Nat.div_eq_of_lt (by omega)
        have h4 : rest.length / size = 0 := Nat.div_eq_of_lt (by omega)
        rw [h1, h2, Nat.add_div_right _ hs, h3, h4]
termination_by l => l.length
decreasing_by
  simp only [List.length_drop, List.length_cons]
  omega

/-- The canonical results are sorted strictly by batch number. -/
theorem canonicalResults_pairwise (codes : List String) (size : ℕ)
    (resp : ℕ → Except String (List Value)) :
    (canonicalResults codes size resp).Pairwise (fun a b => a.1 < b.1) := by
  unfold canonicalResults
  rw [List.pairwise_map]
  have h2 : ((chunksOf size codes).enum.map Prod.fst).Pairwise (fun a b => a < b) := by
    rw [List.enum_map_fst]
    exact List.pairwise_lt_range _
  exact (List.pairwise_map.mp h2).imp (fun h => by omega)

/-- Building the results dict over distinct keys reproduces the completion
list itself: every insertion appends a fresh key. -/
theorem collectResults_eq_self (completion : List (ℕ × BatchOut))
    (hnd : (completion.map Prod.fst).Nodup) :
    collectResults completion = completion := by
  have main : ∀ (l acc : List (ℕ × BatchOut)),
      (l.map Prod.fst).Nodup → (∀ p ∈ l, acc.lookup p.1 = none) →
      l.foldl (fun d p => dictUpd d p.1 p.2) acc = acc ++ l := by
    intro l
    induction l with
    | nil =>
      intro acc _ _
      simp
    | cons p rest ih =>
      intro acc hnd2 hdisj
      rw [List.map_cons, List.nodup_cons] at hnd2
      rw [List.foldl_cons]
      have h0 : acc.lookup p.1 = none := hdisj p (List.mem_cons_self _ _)
      have hupd : dictUpd acc p.1 p.2 = acc ++ [p] := by
        unfold dictUpd
        rw [h0]
        simp
      rw [hupd, ih (acc ++ [p]) hnd2.2 ?_]
      · rw [List.append_assoc]
        rfl
      · intro q hq
        rw [List.lookup_append, hdisj q (List.mem_cons_of_mem _ hq)]
        have hne : (q.1 == p.1) = false := by
          simp only [beq_eq_false_iff_ne, ne_eq]
          intro he
          exact hnd2.1 (he ▸ List.mem_map_of_mem Prod.fst hq)
        obtain ⟨k1, v1⟩ := p
        simp only [Option.none_or, List.lookup_cons, hne]
        rfl
  have h := main completion [] hnd (fun p _ => rfl)
  simpa [collectResults] using h

/-- sortByKey of any permutation of a strictly key-sorted list recovers
that list. -/
theorem sortByKey_eq_of_perm (completion canon : List (ℕ × BatchOut))
    (hperm : List.Perm completion canon)
    (hsorted : canon.Pairwise (fun a b => a.1 < b.1)) :
    sortByKey completion = canon := by
  have h1 : List.Perm (sortByKey completion) canon :=
    (List.perm_insertionSort _ completion).trans hperm
  have h2 : (sortByKey completion).Sorted (fun a b => a.1 ≤ b.1) :=
    List.sorted_insertionSort _ completion
  have hndc : (canon.map Prod.fst).Nodup :=
    List.pairwise_map.mpr (hsorted.imp (fun h => Nat.ne_of_lt h))
  have hnds : ((sortByKey completion).map Prod.fst).Nodup :=
    ((h1.map Prod.fst).nodup_iff).mpr hndc
  have h3 : (sortByKey completion).Pairwise (fun a b => a.1 < b.1) :=
    (h2.and (List.pairwise_map.mp hnds)).imp
      (fun h => lt_of_le_of_ne h.1 h.2)
  exact List.eq_of_perm_of_sorted h1 h3 hsorted

/-- Folding the append of non-failed records gives the concatenation of
those records in list order. -/
theorem assemble_foldl (l : List (ℕ × BatchOut)) (acc : List Value) :
    l.foldl (fun a p => if p.2.error = none then a ++ p.2.records else a) acc =
      acc ++ (l.filter (fun p => p.2.error.isNone)).flatMap
        (fun p => p.2.records) := by
  induction l generalizing acc with
  | nil => simp
  | cons p rest ih =>
    rw [List.foldl_cons]
    by_cases he : p.2.error = none
    · rw [if_pos he, ih, List.filter_cons_of_pos (by simp [he]),
        List.flatMap_cons, List.append_assoc]
    · rw [if_neg he, ih,
        List.filter_cons_of_neg (by simp [Option.isNone_iff_eq_none, he])]

/-- Reassembly of any completion order of a strictly key-sorted result
collection: the concatenation of the non-failed records in key order. -/
theorem reassemble_eq_flat (canon completion : List (ℕ × BatchOut))
    (hsorted : canon.Pairwise (fun a b => a.1 < b.1))
    (hperm : List.Perm completion canon) :
    reassemble completion =
      (canon.filter (fun p => p.2.error.isNone)).flatMap
        (fun p => p.2.records) := by
  unfold reassemble
  have hndcomp : (completion.map Prod.fst).Nodup := by
    have hndc : (canon.map Prod.fst).Nodup :=
      List.pairwise_map.mpr (hsorted.imp (fun h => Nat.ne_of_lt h))
    exact ((hperm.map Prod.fst).nodup_iff).mpr hndc
  rw [collectResults_eq_self completion hndcomp,
    sortByKey_eq_of_perm completion canon hperm hsorted, assemble_foldl]
  rfl

theorem c8_ttl_sweep_counterexample :
    (get_cache "x" [] [("d", vobj [("expireAt", vnum 0),
      ("data", varr [vstr "r"])])] 5).2.1 =
      [("d", vobj [("expireAt", vnum 0), ("data", varr [vstr "r"])])] ∧
    (get_cache "x" [] [("d", vobj [("expireAt", vnum 0),
      ("data", varr [vstr "r"])])] 5).2.2 = false ∧
    (0 : ℚ) < 5 := by
  exact ⟨by decide, by decide, by norm_num⟩

/-- C3: Deterministic reassembly order. For every collection of per-batch
results indexed by strictly ascending batch numbers, and regardless of the
order in which the concurrently executed batches complete (any permutation
of the collection), the reassembled output concatenates the records of the
non-failed batches in ascending batch-index order, so the records of batch
i precede those of batch j whenever i is less than j. -/
theorem c3_deterministic_reassembly_order (canon completion : List (ℕ × BatchOut))
    (hsorted : canon.Pairwise (fun a b => a.1 < b.1))
    (hperm : List.Perm completion canon) :
    reassemble completion =
      (canon.filter (fun p => p.2.error.isNone)).flatMap
        (fun p => p.2.records) :=
  reassemble_eq_flat canon completion hsorted hperm

theorem c3_deterministic_reassembly_order_witness :
    reassemble [(2, ⟨[vstr "c"], [], none⟩), (1, ⟨[vstr "a", vstr "b"], [], none⟩)] =
      [vstr "a", vstr "b", vstr "c"] := by
  have h := c3_deterministic_reassembly_order
    [(1, ⟨[vstr "a", vstr "b"], [], none⟩), (2, ⟨[vstr "c"], [], none⟩)]
    [(2, ⟨[vstr "c"], [], none⟩), (1, ⟨[vstr "a", vstr "b"], [], none⟩)]
    (by decide) (by decide)
  exact h.trans (by decide)

/-- C2: Partial-batch failure semantics. For every non-empty identifier
list, positive batch size, upstream oracle, and completion order of the
per-batch results, the batch fetch raises iff every batch failed; when at
least one batch succeeded it returns normally with data equal to the
concatenation of the succeeded batches' records (failed batches excluded)
and total equal to the count of those records; failed and missing
identifiers are only logged. -/
theorem c2_partial_batch_failure (stockCodes : List String) (size : ℕ)
    (resp : ℕ → Except String (List Value)) (completion : List (ℕ × BatchOut))
    (hne : stockCodes ≠ []) (hs : 0 < size)
    (hperm : List.Perm completion (canonicalResults stockCodes size resp)) :
    (batch_fetch_fundamental_data stockCodes size completion =
        .error "所有批次请求都失败了" ↔
      ∀ p ∈ canonicalResults stockCodes size resp, p.2.error.isSome) ∧
    ((∃ p ∈ canonicalResults stockCodes size resp, p.2.error = none) →
      batch_fetch_fundamental_data stockCodes size completion =
        .ok ((((canonicalResults stockCodes size resp).filter
            (fun p => p.2.error.isNone)).flatMap (fun p => p.2.records)).length,
          ((canonicalResults stockCodes size resp).filter
            (fun p => p.2.error.isNone)).flatMap (fun p => p.2.records))) := by
  have hemp : stockCodes.isEmpty = false := by
    cases stockCodes with
    | nil => exact absurd rfl hne
    | cons a t => rfl
  have hlen : (canonicalResults stockCodes size resp).length =
      (stockCodes.length + size - 1) / size := by
    unfold canonicalResults
    rw [List.length_map, List.enum_length, chunksOf_length size hs]
  have hcount : ((completion.filter (fun p => p.2.error.isSome)).map
      (fun p => p.1)).length =
      (canonicalResults stockCodes size resp).countP
        (fun p => p.2.error.isSome) := by
    rw [List.length_map, ← List.countP_eq_length_filter, hperm.countP_eq]
  have hstep : batch_fetch_fundamental_data stockCodes size completion =
      if ((completion.filter (fun p => p.2.error.isSome)).map
          (fun p => p.1)).length = (stockCodes.length + size - 1) / size then
        .error "所有批次请求都失败了"
      else .ok ((reassemble completion).length, reassemble completion) := by
    unfold batch_fetch_fundamental_data
    simp only [hemp, Bool.false_eq_true, if_false]
  by_cases hall : ∀ p ∈ canonicalResults stockCodes size resp,
      p.2.error.isSome = true
  · have hcond : ((completion.filter (fun p => p.2.error.isSome)).map
        (fun p => p.1)).length = (stockCodes.length + size - 1) / size := by
      rw [hcount, List.countP_eq_length.mpr hall, hlen]
    have hres : batch_fetch_fundamental_data stockCodes size completion =
        .error "所有批次请求都失败了" := by
      rw [hstep, if_pos hcond]
    refine ⟨⟨fun _ => hall, fun _ => hres⟩, ?_⟩
    rintro ⟨p, hp, hperr⟩
    have h2 := hall p hp
    rw [hperr] at h2
    simp at h2
  · have hcond : ¬ (((completion.filter (fun p => p.2.error.isSome)).map
        (fun p => p.1)).length = (stockCodes.length + size - 1) / size) := by
      rw [hcount, ← hlen]
      intro hEq
      exact hall (List.countP_eq_length.mp hEq)
    have hflat : reassemble completion =
        ((canonicalResults stockCodes size resp).filter
          (fun p => p.2.error.isNone)).flatMap (fun p => p.2.records) :=
      reassemble_eq_flat _ completion
        (canonicalResults_pairwise stockCodes size resp) hperm
    have hres : batch_fetch_fundamental_data stockCodes size completion =
        .ok ((((canonicalResults stockCodes size resp).filter
            (fun p => p.2.error.isNone)).flatMap (fun p => p.2.records)).length,
          ((canonicalResults stockCodes size resp).filter
            (fun p => p.2.error.isNone)).flatMap (fun p => p.2.records)) := by
      rw [hstep, if_neg hcond, hflat]
    refine ⟨⟨?_, fun h => absurd h hall⟩, fun _ => hres⟩
    intro herr
    rw [hres] at herr
    simp at herr

/-- A tiny upstream oracle for the batch-fetch witnesses: batch 1 answers
with two records, every other batch raises. -/
def respDemo : ℕ → Except String (List Value) := fun i =>
  if i = 1 then
    .ok [vobj [("stockCode", vstr "a")], vobj [("stockCode", vstr "b")]]
  else .error "boom"

theorem c2_partial_batch_failure_witness :
    batch_fetch_fundamental_data ["a", "b", "c"] 2
      ((canonicalResults ["a", "b", "c"] 2 respDemo).reverse) =
      .ok (2, [vobj [("stockCode", vstr "a")], vobj [("stockCode", vstr "b")]]) := by
  have h := c2_partial_batch_failure ["a", "b", "c"] 2 respDemo
    ((canonicalResults ["a", "b", "c"] 2 respDemo).reverse)
    (by decide) (by decide) (List.reverse_perm _)
  exact (h.2 (by decide)).trans (congrArg Except.ok (by decide))

/-- C9 (amended): Missing-identifier detection. A successfully fetched
batch never carries an error, whatever its missing list. When the record
count of the response differs from the requested chunk length, every
requested code absent from the truthy stockCode values of the response is
recorded in the missing list; when the counts are equal the missing list is
empty even if the returned codes differ from the requested ones, which the
counterexample shows against the original claim. -/
theorem c9_missing_identifier_detection (batch : List String)
    (batchData : List Value) :
    (fetch_single_batch batch (.ok batchData)).error = none ∧
    (batchData.length = batch.length →
      (fetch_single_batch batch (.ok batchData)).missing = []) ∧
    (batchData.length ≠ batch.length →
      ∀ c ∈ batch, vstr c ∉ receivedCodes batchData →
        c ∈ (fetch_single_batch batch (.ok batchData)).missing) := by
  refine ⟨rfl, ?_, ?_⟩
  · intro hlen
    show (if batchData.length ≠ batch.length then
        batch.dedup.filter
          (fun c => !(receivedCodes batchData).contains (vstr c))
      else []) = []
    rw [if_neg (fun h => h hlen)]
  · intro hlen c hc hnr
    show c ∈ (if batchData.length ≠ batch.length then
        batch.dedup.filter
          (fun c => !(receivedCodes batchData).contains (vstr c))
      else [])
    rw [if_pos hlen, List.mem_filter]
    refine ⟨List.mem_dedup.mpr hc, ?_⟩
    simp only [Bool.not_eq_eq_eq_not, Bool.not_true]
    simpa [List.contains] using hnr

theorem c9_missing_identifier_detection_witness :
    (fetch_single_batch ["a", "b"] (.ok [vobj [("stockCode", vstr "a")]])).error
      = none ∧
    "b" ∈ (fetch_single_batch ["a", "b"]
      (.ok [vobj [("stockCode", vstr "a")]])).missing := by
  have h := c9_missing_identifier_detection ["a", "b"]
    [vobj [("stockCode", vstr "a")]]
  exact ⟨h.1, h.2.2 (by decide) "b" (by decide) (by decide)⟩

theorem c9_missing_identifier_detection_counterexample :
    (fetch_single_batch ["a"] (.ok [vobj [("stockCode", vstr "z")]])).missing
      = [] ∧
    vstr "a" ∉ receivedCodes [vobj [("stockCode", vstr "z")]] ∧
    "a" ∈ ["a"] := by
  exact ⟨rfl, by decide, by decide⟩

/-! ## src/api/api_handler.py -/

/-- Python str.lower(), computed characterwise (models the .lower() calls
of the logical-failure checks). -/
def strLower (s : String) : String := String.mk (s.toList.map Char.toLower)

/-- Python str() of a JSON value, as far as the code compares or forwards
it: strings pass through, booleans render True and False, null renders
None, a number renders its digits (display approximation: a non-integral
rational shows num/den), containers render a bracket placeholder. Only the
comparison against the word success matters to the code, and none of the
non-string renderings can equal it. -/
def pyStr : Value → String
  | vnull => "None"
  | vbool true => "True"
  | vbool false => "False"
  | vstr s => s
  | vnum q =>
    if q.den = 1 then toString q.num
    else toString q.num ++ "/" ++ toString q.den
  | vobj _ => "\x7b...\x7d"
  | varr _ => "[...]"

/-- The HTTP-200 logical-failure check shared verbatim by
get_stock_fundamentals (lines 196 to 214) and get_stock_fs_data (lines 261
to 279) of src/api/api_handler.py: when the decoded body has no data
field, an error field present with a truthy value whose lowercased string
form is not success raises with that string; otherwise, only when the
error field is itself absent (elif), a message field present with a truthy
value whose lowercased string form is not success raises with that string.
A body carrying a data field never raises here. Returns the raised
api_error_message, none when nothing is raised. -/
def extract_api_error (result : Obj) : Option String :=
  if (result.lookup "data").isSome then none
  else
    match result.lookup "error" with
    | some ev =>
      if ev.truthy ∧ strLower (pyStr ev) ≠ "success" then some (pyStr ev)
      else none
    | none =>
      match result.lookup "message" with
      | some mv =>
        if mv.truthy ∧ strLower (pyStr mv) ≠ "success" then some (pyStr mv)
        else none
      | none => none

/-- Modelled from the claim text of C6 as frozen (used only to exhibit the
divergence): a body without a data field carrying an error or message
field whose value is not the string success case-insensitively fails, with
the message extracted in priority order from the fields message, error,
msg. -/
def nonSuccessField : Option Value → Bool
  | some v => decide (strLower (pyStr v) ≠ "success")
  | none => false

def claimed_api_error (result : Obj) : Option String :=
  if (result.lookup "data").isSome then none
  else
    if nonSuccessField (result.lookup "error") ||
       nonSuccessField (result.lookup "message") then
      match result.lookup "message" with
      | some mv => some (pyStr mv)
      | none =>
        match result.lookup "error" with
        | some ev => some (pyStr ev)
        | none => (result.lookup "msg").map pyStr
    else none

/-- field_key.split on the dot, computed characterwise so that it stays
kernel-evaluable. -/
def splitDotAux : List Char → List Char → List String
  | [], acc => [String.mk acc.reverse]
  | c :: rest, acc =>
    if c = '.' then String.mk acc.reverse :: splitDotAux rest []
    else splitDotAux rest (c :: acc)

/-- Python "a.b.c".split of the dotted field key. -/
def splitDot (s : String) : List String := splitDotAux s.toList []

/-- The walk of extract_nested_field_value: at each key the current value
must be truthy and be a mapping containing the key, else the walk answers
null (Python None). -/
def extractNestedGo : List String → Value → Value
  | [], v => v
  | k :: ks, v =>
    if v.truthy && (v.objLookup k).isSome then
      extractNestedGo ks ((v.objLookup k).getD vnull)
    else vnull

/-- extract_nested_field_value from src/api/api_handler.py: a falsy object
or empty key answers null; otherwise the dotted path is split and walked.
A null leaf returns null, indistinguishable from an absent path. -/
def extract_nested_field_value (obj : Value) (fieldKey : String) : Value :=
  if obj.truthy = false ∨ fieldKey = "" then vnull
  else extractNestedGo (splitDot fieldKey) obj

/-- process_fs_data from src/api/api_handler.py: a falsy record or empty
metric list is returned unchanged; otherwise the record is copied and, for
every non-empty field key whose nested extraction from the original record
is non-null, the extracted value is written under the full dotted path as
a top-level key. A truthy non-mapping record would raise on .copy() in
Python and is returned unchanged here. -/
def process_fs_data (fsData : Value) (fsMetricsList : List String) : Value :=
  if fsData.truthy = false ∨ fsMetricsList = [] then fsData
  else
    match fsData with
    | vobj fields =>
      vobj (fsMetricsList.foldl (fun acc fieldKey =>
        if fieldKey = "" then acc
        else
          if extract_nested_field_value fsData fieldKey ≠ vnull then
            dictUpd acc fieldKey (extract_nested_field_value fsData fieldKey)
          else acc) fields)
    | _ => fsData

/-- Python dict spread of two records: a copy of the first updated by every
binding of the second ({**a, **b}). -/
def pyDictMerge (a b : Obj) : Obj :=
  b.foldl (fun acc p => dictUpd acc p.1 p.2) a

/-- Lines 481 to 497 of src/api/api_handler.py: merge the financial
statement records into the fundamental records by stock code. With both
sets non-empty, a lookup dict is built from the secondary records keyed by
their stockCode value (a record without stockCode keys null, a duplicated
code keeps the last record), and each primary record with a matching key
is overlaid by the matching secondary record (dict spread, secondary
winning per key); primary records without a match pass unchanged, and
secondary-only records are dropped. With an empty primary set and a
non-empty secondary set the secondary set is returned verbatim; otherwise
the primary set stays as is. -/
def merge_stocks_data (stocksData fsStocksData : List Obj) : List Obj :=
  if stocksData ≠ [] ∧ fsStocksData ≠ [] then
    stocksData.map (fun stock =>
      match (fsStocksData.foldl
          (fun m r => dictUpd m (objGet r "stockCode") r)
          []).lookup (objGet stock "stockCode") with
      | some f => pyDictMerge stock f
      | none => stock)
  else if fsStocksData ≠ [] then fsStocksData
  else stocksData

/-- Modelled from the spec words for mergeByCode: each primary record is
overlaid by the last secondary record whose stockCode equals its own, when
one exists. -/
def mergeByCodeSpec (primary secondary : List Obj) : List Obj :=
  primary.map (fun stock =>
    match secondary.reverse.find?
        (fun f => objGet f "stockCode" == objGet stock "stockCode") with
    | some f => pyDictMerge stock f
    | none => stock)

/-- Looking a key up in a dict built by folding keyed insertions finds the
value of the last item carrying that key, and falls back to the initial
dict. -/
theorem foldl_dictUpd_lookup {κ β γ : Type} [BEq κ] [LawfulBEq κ]
    [DecidableEq κ] (key : γ → κ) (val : γ → β) (s : List γ) (c : κ) :
    ∀ acc : List (κ × β),
      (s.foldl (fun m r => dictUpd m (key r) (val r)) acc).lookup c =
        (match s.reverse.find? (fun r => key r == c) with
        | some r => some (val r)
        | none => acc.lookup c) := by
  induction s with
  | nil =>
    intro acc
    simp
  | cons r rest ih =>
    intro acc
    rw [List.foldl_cons, ih, List.reverse_cons, List.find?_append]
    cases hf : rest.reverse.find? (fun r => key r == c) with
    | some f => rfl
    | none =>
      by_cases hk : key r = c
      · have h1 : [r].find? (fun r => key r == c) = some r := by
          rw [List.find?_singleton, if_pos (by simp [hk])]
        rw [h1, hk, dictUpd_lookup_self]
        rfl
      · have h1 : [r].find? (fun r => key r == c) = none := by
          rw [List.find?_singleton, if_neg (by simp [hk])]
        rw [h1, dictUpd_lookup_ne acc (key r) (val r) c
          (fun he => hk he.symm)]
        rfl

/-- The dict spread gives every key the last binding of the second record,
and falls back to the first record. -/
theorem pyDictMerge_lookup (a b : Obj) (k : String) :
    (pyDictMerge a b).lookup k =
      ((b.reverse.find? (fun p => p.1 == k)).map (fun p => p.2)).or
        (a.lookup k) := by
  unfold pyDictMerge
  rw [foldl_dictUpd_lookup (fun p : String × Value => p.1)
    (fun p : String × Value => p.2) b k a]
  cases b.reverse.find? (fun p => p.1 == k) with
  | some f => rfl
  | none => rfl

/-- C4: Merge-by-code semantics. For all non-empty primary (fundamental)
and secondary (financial-statement) record sets, the merged result
contains, in primary order, exactly one record per primary record: the
primary record overlaid by the matching secondary record (matched on
stockCode, a duplicated code matching its last record, the secondary
winning on every key collision) when a match exists, and the primary
record unchanged otherwise; secondary-only records are excluded. When the
primary set is empty and the secondary set is non-empty, the result is the
secondary set verbatim. -/
theorem c4_merge_by_code (stocksData fsStocksData : List Obj)
    (hp : stocksData ≠ []) (hs : fsStocksData ≠ []) :
    merge_stocks_data stocksData fsStocksData =
      mergeByCodeSpec stocksData fsStocksData ∧
    (∀ (stock f : Obj) (k : String),
      (pyDictMerge stock f).lookup k =
        ((f.reverse.find? (fun p => p.1 == k)).map (fun p => p.2)).or
          (stock.lookup k)) ∧
    merge_stocks_data [] fsStocksData = fsStocksData := by
  refine ⟨?_, pyDictMerge_lookup, ?_⟩
  · unfold merge_stocks_data mergeByCodeSpec
    rw [if_pos ⟨hp, hs⟩]
    apply List.map_congr_left
    intro stock _
    rw [foldl_dictUpd_lookup (fun r : Obj => objGet r "stockCode")
      (fun r : Obj => r) fsStocksData (objGet stock "stockCode") []]
    cases fsStocksData.reverse.find?
        (fun f => objGet f "stockCode" == objGet stock "stockCode") with
    | some f => rfl
    | none => rfl
  · unfold merge_stocks_data
    rw [if_neg (fun h => h.1 rfl), if_pos hs]

theorem c4_merge_by_code_witness :
    merge_stocks_data [[("stockCode", vstr "A"), ("x", vnum 1)]]
        [[("stockCode", vstr "A"), ("x", vnum 2), ("z", vnum 3)]] =
      [[("stockCode", vstr "A"), ("x", vnum 2), ("z", vnum 3)]] := by
  have h := c4_merge_by_code [[("stockCode", vstr "A"), ("x", vnum 1)]]
    [[("stockCode", vstr "A"), ("x", vnum 2), ("z", vnum 3)]]
    (by decide) (by decide)
  exact h.1.trans (by decide)

/-- C6 (amended): HTTP-200 logical upstream failure. For every decoded
body, getStockFundamentals and getStockFsData raise an UpstreamError-tagged
failure with forwardable message m iff the body has no data field and
either its error field holds a truthy value, whose lowercased string form
is not success, rendering as m, or it has no error field at all (elif) and
its message field holds such a value rendering as m. The msg field is
never consulted on this path, the error field takes priority over message,
and a falsy or success-valued error field suppresses the message check
entirely, which the counterexample shows against the original claim. -/
theorem extract_api_error_of_data (result : Obj) (dv : Value)
    (hd : result.lookup "data" = some dv) : extract_api_error result = none := by
  unfold extract_api_error
  rw [hd]
  rfl

theorem extract_api_error_of_err (result : Obj) (ev : Value)
    (hd : result.lookup "data" = none)
    (he : result.lookup "error" = some ev) :
    extract_api_error result =
      if ev.truthy = true ∧ strLower (pyStr ev) ≠ "success" then
        some (pyStr ev)
      else none := by
  unfold extract_api_error
  rw [hd, he]
  rfl

theorem extract_api_error_of_msg (result : Obj) (mv : Value)
    (hd : result.lookup "data" = none)
    (he : result.lookup "error" = none)
    (hm : result.lookup "message" = some mv) :
    extract_api_error result =
      if mv.truthy = true ∧ strLower (pyStr mv) ≠ "success" then
        some (pyStr mv)
      else none := by
  unfold extract_api_error
  rw [hd, he, hm]
  rfl

theorem extract_api_error_of_neither (result : Obj)
    (hd : result.lookup "data" = none)
    (he : result.lookup "error" = none)
    (hm : result.lookup "message" = none) :
    extract_api_error result = none := by
  unfold extract_api_error
  rw [hd, he, hm]
  rfl

/-- C6 (amended): HTTP-200 logical upstream failure. For every decoded
body, getStockFundamentals and getStockFsData raise an UpstreamError-tagged
failure with forwardable message m iff the body has no data field and
either its error field holds a truthy value, whose lowercased string form
is not success, rendering as m, or it has no error field at all (elif) and
its message field holds such a value rendering as m. The msg field is
never consulted on this path, the error field takes priority over message,
and a falsy or success-valued error field suppresses the message check
entirely, which the counterexample shows against the original claim. -/
theorem c6_http200_logical_failure (result : Obj) (m : String) :
    extract_api_error result = some m ↔
      result.lookup "data" = none ∧
      ((∃ ev, result.lookup "error" = some ev ∧ ev.truthy = true ∧
          strLower (pyStr ev) ≠ "success" ∧ m = pyStr ev) ∨
        (result.lookup "error" = none ∧
          ∃ mv, result.lookup "message" = some mv ∧ mv.truthy = true ∧
            strLower (pyStr mv) ≠ "success" ∧ m = pyStr mv)) := by
  cases hd : result.lookup "data" with
  | some dv =>
    rw [extract_api_error_of_data result dv hd]
    constructor
    · intro h
      cases h
    · rintro ⟨hdn, _⟩
      cases hdn
  | none =>
    cases he : result.lookup "error" with
    | some ev =>
      rw [extract_api_error_of_err result ev hd he]
      by_cases ht : ev.truthy = true ∧ strLower (pyStr ev) ≠ "success"
      · rw [if_pos ht]
        constructor
        · intro h
          exact ⟨rfl, Or.inl ⟨ev, rfl, ht.1, ht.2,
            ((Option.some.injEq _ _).mp h).symm⟩⟩
        · rintro ⟨_, hca | hcb⟩
          · obtain ⟨ev2, he2, _, _, hm⟩ := hca
            rw [hm, (Option.some.injEq _ _).mp he2]
          · obtain ⟨hen, _⟩ := hcb
            cases hen
      · rw [if_neg ht]
        constructor
        · intro h
          cases h
        · rintro ⟨_, hca | hcb⟩
          · obtain ⟨ev2, he2, ht1, ht2, _⟩ := hca
            have hee := (Option.some.injEq _ _).mp he2
            rw [← hee] at ht1 ht2
            exact absurd ⟨ht1, ht2⟩ ht
          · obtain ⟨hen, _⟩ := hcb
            cases hen
    | none =>
      cases hm : result.lookup "message" with
      | some mv =>
        rw [extract_api_error_of_msg result mv hd he hm]
        by_cases ht : mv.truthy = true ∧ strLower (pyStr mv) ≠ "success"
        · rw [if_pos ht]
          constructor
          · intro h
            exact ⟨rfl, Or.inr ⟨rfl, mv, rfl, ht.1, ht.2,
              ((Option.some.injEq _ _).mp h).symm⟩⟩
          · rintro ⟨_, hca | hcb⟩
            · obtain ⟨ev2, he2, _, _, _⟩ := hca
              cases he2
            · obtain ⟨_, mv2, hm2, _, _, hmm⟩ := hcb
              rw [hmm, (Option.some.injEq _ _).mp hm2]
        · rw [if_neg ht]
          constructor
          · intro h
            cases h
          · rintro ⟨_, hca | hcb⟩
            · obtain ⟨ev2, he2, _, _, _⟩ := hca
              cases he2
            · obtain ⟨_, mv2, hm2, ht1, ht2, _⟩ := hcb
              have hee := (Option.some.injEq _ _).mp hm2
              rw [← hee] at ht1 ht2
              exact absurd ⟨ht1, ht2⟩ ht
      | none =>
        rw [extract_api_error_of_neither result hd he hm]
        constructor
        · intro h
          cases h
        · rintro ⟨_, hca | hcb⟩
          · obtain ⟨ev2, he2, _, _, _⟩ := hca
            cases he2
          · obtain ⟨_, mv2, hm2, _, _, _⟩ := hcb
            cases hm2

theorem c6_http200_logical_failure_counterexample :
    extract_api_error [("error", vstr "success"), ("message", vstr "boom")]
      = none ∧
    claimed_api_error [("error", vstr "success"), ("message", vstr "boom")]
      = some "boom" ∧
    extract_api_error [("error", vstr "E"), ("message", vstr "M")]
      = some "E" ∧
    claimed_api_error [("error", vstr "E"), ("message", vstr "M")]
      = some "M" := by
  exact ⟨by decide, by decide, by decide, by decide⟩

/-- Looking up a field of a mapping value is a lookup in its field list. -/
theorem objLookup_vobj (o : Obj) (k : String) :
    (vobj o).objLookup k = o.lookup k := rfl

/-- Lookup characterization of the process_fs_data fold: a key holds the
nested extraction from the fixed original record when it is some non-empty
requested path with non-null extraction, and otherwise falls back to the
accumulator. All iterations extract from the same original record, so
duplicate paths write equal values. -/
theorem processFold_lookup (fsData : Value) (ps : List String) (k : String) :
    ∀ acc : Obj,
      (ps.foldl (fun acc fieldKey =>
        if fieldKey = "" then acc
        else
          if extract_nested_field_value fsData fieldKey ≠ vnull then
            dictUpd acc fieldKey (extract_nested_field_value fsData fieldKey)
          else acc) acc).lookup k =
      (if k ∈ ps ∧ k ≠ "" ∧ extract_nested_field_value fsData k ≠ vnull
       then some (extract_nested_field_value fsData k)
       else acc.lookup k) := by
  induction ps with
  | nil =>
    intro acc
    simp
  | cons p rest ih =>
    intro acc
    rw [List.foldl_cons, ih]
    by_cases hr : k ∈ rest ∧ k ≠ "" ∧
        extract_nested_field_value fsData k ≠ vnull
    · rw [if_pos hr, if_pos ⟨List.mem_cons_of_mem p hr.1, hr.2⟩]
    · rw [if_neg hr]
      by_cases hkp : k = p ∧ k ≠ "" ∧
          extract_nested_field_value fsData k ≠ vnull
      · obtain ⟨hkp1, hkp2, hkp3⟩ := hkp
        subst hkp1
        have hmem : k ∈ k :: rest ∧ k ≠ "" ∧
            extract_nested_field_value fsData k ≠ vnull :=
          ⟨List.mem_cons_self k rest, hkp2, hkp3⟩
        rw [if_pos hmem, if_neg hkp2, if_pos hkp3, dictUpd_lookup_self]
      · have hcond : ¬(k ∈ p :: rest ∧ k ≠ "" ∧
            extract_nested_field_value fsData k ≠ vnull) := by
          rintro ⟨hmem, h2, h3⟩
          cases List.mem_cons.mp hmem with
          | inl h => exact hkp ⟨h, h2, h3⟩
          | inr h => exact hr ⟨h, h2, h3⟩
        rw [if_neg hcond]
        by_cases hp0 : p = ""
        · rw [if_pos hp0]
        · rw [if_neg hp0]
          by_cases hE : extract_nested_field_value fsData p ≠ vnull
          · rw [if_pos hE]
            have hne : k ≠ p := by
              intro he
              exact hkp ⟨he, by simpa [he] using hp0, by simpa [he] using hE⟩
            rw [dictUpd_lookup_ne acc p _ k hne]
          · rw [if_neg hE]

/-- When every requested path extracts null from the original record, the
process_fs_data fold never writes and returns its accumulator verbatim. -/
theorem processFold_id (fsData : Value) (ps : List String)
    (h : ∀ p ∈ ps, extract_nested_field_value fsData p = vnull) :
    ∀ acc : Obj,
      ps.foldl (fun acc fieldKey =>
        if fieldKey = "" then acc
        else
          if extract_nested_field_value fsData fieldKey ≠ vnull then
            dictUpd acc fieldKey (extract_nested_field_value fsData fieldKey)
          else acc) acc = acc := by
  induction ps with
  | nil =>
    intro acc
    rfl
  | cons p rest ih =>
    intro acc
    rw [List.foldl_cons]
    have hstep : (if p = "" then acc
        else
          if extract_nested_field_value fsData p ≠ vnull then
            dictUpd acc p (extract_nested_field_value fsData p)
          else acc) = acc := by
      by_cases hp0 : p = ""
      · rw [if_pos hp0]
      · rw [if_neg hp0,
          if_neg (fun hn => hn (h p (List.mem_cons_self p rest)))]
    rw [hstep]
    exact ih (fun q hq => h q (List.mem_cons_of_mem p hq)) acc

/-- C10 (amended): financial-statement post-processing writes a top-level
key equal to a requested dotted path exactly when the nested extraction
from the ORIGINAL record is non-null, overwriting any pre-existing
top-level key of that name; every other lookup, including a path whose
stored leaf is null or whose walk hits a missing or non-mapping
intermediate, answers exactly what the original record held, so a stored
null leaf is indistinguishable from an absent path in the extraction, but
a pre-existing top-level key of the path name is kept, not removed. When
every requested path extracts null the record is returned verbatim. -/
theorem c10_null_leaves_not_lifted (fields : Obj) (ps : List String)
    (hf : fields ≠ []) (hp : ps ≠ []) :
    (∀ k, (process_fs_data (vobj fields) ps).objLookup k =
      (if k ∈ ps ∧ k ≠ "" ∧
          extract_nested_field_value (vobj fields) k ≠ vnull
       then some (extract_nested_field_value (vobj fields) k)
       else fields.lookup k)) ∧
    ((∀ p ∈ ps, extract_nested_field_value (vobj fields) p = vnull) →
      process_fs_data (vobj fields) ps = vobj fields) := by
  have htr : (vobj fields).truthy = true := by
    simp [Value.truthy, hf]
  have hcond : ¬((vobj fields).truthy = false ∨ ps = []) := by
    rintro (h | h)
    · rw [htr] at h
      cases h
    · exact hp h
  have hred : process_fs_data (vobj fields) ps =
      vobj (ps.foldl (fun acc fieldKey =>
        if fieldKey = "" then acc
        else
          if extract_nested_field_value (vobj fields) fieldKey ≠ vnull then
            dictUpd acc fieldKey
              (extract_nested_field_value (vobj fields) fieldKey)
          else acc) fields) := by
    unfold process_fs_data
    rw [if_neg hcond]
  constructor
  · intro k
    rw [hred, objLookup_vobj]
    exact processFold_lookup (vobj fields) ps k fields
  · intro hall
    rw [hred, processFold_id (vobj fields) ps hall fields]

theorem c10_null_leaves_not_lifted_witness :
    ([("y", vobj [("m", vnum 7), ("n", vnull)]), ("y.m", vnum 1)] : Obj)
        ≠ [] ∧
    (["y.m", "y.n"] : List String) ≠ [] ∧
    (process_fs_data
        (vobj [("y", vobj [("m", vnum 7), ("n", vnull)]), ("y.m", vnum 1)])
        ["y.m", "y.n"]).objLookup "y.m" = some (vnum 7) ∧
    (process_fs_data
        (vobj [("y", vobj [("m", vnum 7), ("n", vnull)]), ("y.m", vnum 1)])
        ["y.m", "y.n"]).objLookup "y.n" = none := by
  refine ⟨by decide, by decide, ?_, ?_⟩
  · rw [(c10_null_leaves_not_lifted
      [("y", vobj [("m", vnum 7), ("n", vnull)]), ("y.m", vnum 1)]
      ["y.m", "y.n"] (by decide) (by decide)).1 "y.m"]
    decide
  · rw [(c10_null_leaves_not_lifted
      [("y", vobj [("m", vnum 7), ("n", vnull)]), ("y.m", vnum 1)]
      ["y.m", "y.n"] (by decide) (by decide)).1 "y.n"]
    decide

theorem c10_null_leaves_not_lifted_counterexample :
    (process_fs_data (vobj [("y", vobj [("m", vnum 7)]), ("y.m", vnum 1)])
        ["y.m"]).objLookup "y.m" = some (vnum 7) ∧
    (process_fs_data (vobj [("a", vnull)]) ["a"]).objLookup "a"
      = some vnull := by
  exact ⟨by decide, by decide⟩

end FindMyStocks
